import Mathlib

/-!
Shallow embedding of the expense splitting and debt settlement engine
(`app/services/expense/split_calculator.py` and
`app/services/expense/settlement.py`).

Python `Decimal` values are modelled as exact rationals (`ℚ`);
`Decimal.quantize(Decimal('0.01'), ...)` becomes rounding to an integer
number of cents.  `Decimal` arithmetic is exact up to 28 significant
digits, so for the magnitudes relevant here the rational model coincides
with the source's arithmetic.  The display percentages that the source
computes through a binary-float intermediate (`Decimal(100 / n)`,
`Decimal(shares * 100 / total_shares)`) are modelled as the exact
rational value rounded with the same (half-even) rule; no claim below
depends on those display values beyond congruence.
-/

/-- Python `int(x)` applied to a `Decimal`: truncation toward zero. -/
def truncInt (x : ℚ) : ℤ := if 0 ≤ x then ⌊x⌋ else -⌊-x⌋

/-- Rounding to the nearest integer with ties away from zero: the
`decimal` module's `ROUND_HALF_UP` mode. -/
def roundHalfUp (x : ℚ) : ℤ := if 0 ≤ x then ⌊x + 1/2⌋ else -⌊-x + 1/2⌋

/-- Rounding to the nearest integer with ties to even: the `decimal`
module's `ROUND_HALF_EVEN` mode, the default context rounding used by a
bare `quantize`. -/
def roundHalfEven (x : ℚ) : ℤ :=
  if x - ⌊x⌋ < 1/2 then ⌊x⌋
  else if 1/2 < x - ⌊x⌋ then ⌊x⌋ + 1
  else if ⌊x⌋ % 2 = 0 then ⌊x⌋ else ⌊x⌋ + 1

/-- Model of `d.quantize(Decimal('0.01'), rounding=ROUND_HALF_UP)`. -/
def quantizeHalfUp (x : ℚ) : ℚ := (roundHalfUp (x * 100) : ℚ) / 100

/-- Model of `d.quantize(Decimal('0.01'))` under the default context
rounding (`ROUND_HALF_EVEN`). -/
def quantizeHalfEven (x : ℚ) : ℚ := (roundHalfEven (x * 100) : ℚ) / 100

/-- The `SplitType` enum from `app/models/expense.py`. -/
inductive SplitType where
  | equal
  | percentage
  | shares
  | exact
deriving DecidableEq, Repr

/-- The `SplitConfig` TypedDict (`total=False`): configuration for a
single user's split.  A key that is absent and a key set to `None` are
indistinguishable to the source (every read goes through
`config.get(key, default) or default`), so both are modelled as
`none`. -/
structure SplitConfig where
  user_id : String
  percentage : Option ℚ := none
  shares : Option ℤ := none
  amount : Option ℚ := none
deriving DecidableEq, Repr

/-- Python `config.get('percentage', Decimal(0)) or Decimal(0)`: a
missing or `None` percentage yields `0`; `Decimal(0)` itself is falsy
and also yields `0`. -/
def effPercentage (c : SplitConfig) : ℚ := c.percentage.getD 0

/-- Python `config.get('amount', Decimal(0)) or Decimal(0)`. -/
def effAmount (c : SplitConfig) : ℚ := c.amount.getD 0

/-- Python `config.get('shares', 1) or 1`: a missing share count, a
`None` one, and a `0` one (falsy) all collapse to `1`. -/
def effShares (c : SplitConfig) : ℤ :=
  match c.shares with
  | none => 1
  | some s => if s = 0 then 1 else s

/-- The `CalculatedSplit` TypedDict: result of split calculation for a
single user. -/
structure CalculatedSplit where
  user_id : String
  amount : ℚ
  percentage : Option ℚ
  shares : Option ℤ
deriving DecidableEq, Repr

/-- The `ValueError`s raised by `calculate_splits`, keyed by the spec's
taxonomy: `configurationError` for `"... splits require split_configs"`,
`validationError expected actual` for
`"... must sum to {expected}, got {actual}"`, and `sharesNotPositive`
for `"Total shares must be positive"`. -/
inductive SplitError where
  | configurationError (policy : SplitType)
  | validationError (expected actual : ℚ)
  | sharesNotPositive
deriving DecidableEq, Repr

/-- `_calculate_equal_split`: split equally among all members.
`base_amount` is `total / n` quantized half-up to the cent; the first
`int(remainder * 100)` members receive one extra cent. -/
def _calculate_equal_split (total_amount : ℚ) (member_ids : List String) :
    List CalculatedSplit :=
  let num_members : ℕ := member_ids.length
  let base_amount := quantizeHalfUp (total_amount / (num_members : ℚ))
  let remainder := total_amount - base_amount * (num_members : ℚ)
  member_ids.enum.map fun p =>
    { user_id := p.2
      amount :=
        base_amount + (if (p.1 : ℤ) < truncInt (remainder * 100) then 1/100 else 0)
      percentage := some (quantizeHalfEven (100 / (num_members : ℚ)))
      shares := none }

/-- The row-building loop of `_calculate_percentage_split`, carrying
`running_total`; the last member receives `total − running_total`. -/
def percentageRows (total_amount : ℚ) :
    List SplitConfig → ℚ → List CalculatedSplit
  | [], _ => []
  | [config], running_total =>
      [{ user_id := config.user_id
         amount := total_amount - running_total
         percentage := some (effPercentage config)
         shares := none }]
  | config :: next :: rest, running_total =>
      let percentage := effPercentage config
      let amount := quantizeHalfUp (total_amount * percentage / 100)
      { user_id := config.user_id, amount := amount,
        percentage := some percentage, shares := none }
        :: percentageRows total_amount (next :: rest) (running_total + amount)

/-- `_calculate_percentage_split`: split by percentage. -/
def _calculate_percentage_split (total_amount : ℚ)
    (split_configs : List SplitConfig) :
    Except SplitError (List CalculatedSplit) :=
  let total_percentage := (split_configs.map effPercentage).sum
  if 1/100 < |total_percentage - 100| then
    .error (.validationError 100 total_percentage)
  else
    .ok (percentageRows total_amount split_configs 0)

/-- The row-building loop of `_calculate_shares_split`; the last member
receives `total − running_total`; every member's display percentage is
`shares * 100 / total_shares` rounded half-even to two decimals. -/
def sharesRows (total_amount : ℚ) (total_shares : ℤ) :
    List SplitConfig → ℚ → List CalculatedSplit
  | [], _ => []
  | [config], running_total =>
      let shares := effShares config
      [{ user_id := config.user_id
         amount := total_amount - running_total
         percentage := some (quantizeHalfEven ((shares : ℚ) * 100 / (total_shares : ℚ)))
         shares := some shares }]
  | config :: next :: rest, running_total =>
      let shares := effShares config
      let amount := quantizeHalfUp (total_amount * (shares : ℚ) / (total_shares : ℚ))
      { user_id := config.user_id, amount := amount,
        percentage := some (quantizeHalfEven ((shares : ℚ) * 100 / (total_shares : ℚ))),
        shares := some shares }
        :: sharesRows total_amount total_shares (next :: rest) (running_total + amount)

/-- `_calculate_shares_split`: split by share counts. -/
def _calculate_shares_split (total_amount : ℚ)
    (split_configs : List SplitConfig) :
    Except SplitError (List CalculatedSplit) :=
  let total_shares := (split_configs.map effShares).sum
  if total_shares ≤ 0 then .error .sharesNotPositive
  else .ok (sharesRows total_amount total_shares split_configs 0)

/-- `_calculate_exact_split`: split by exact amounts.  When the total is
zero (falsy) the display percentage is `Decimal(0)` instead of the
quotient `amount / total * 100`. -/
def _calculate_exact_split (total_amount : ℚ)
    (split_configs : List SplitConfig) :
    Except SplitError (List CalculatedSplit) :=
  let total_specified := (split_configs.map effAmount).sum
  if 1/100 < |total_specified - total_amount| then
    .error (.validationError total_amount total_specified)
  else
    .ok (split_configs.map fun config =>
      { user_id := config.user_id
        amount := effAmount config
        percentage :=
          if total_amount ≠ 0 then
            some (quantizeHalfEven (effAmount config / total_amount * 100))
          else some 0
        shares := none })

/-- `calculate_splits`: dispatch on the split type.  An empty member
list returns `[]` before any other check; for the non-Equal policies a
`None` configuration and an empty configuration list are both falsy
(`if not split_configs`) and raise the configuration error. -/
def calculate_splits (total_amount : ℚ) (split_type : SplitType)
    (member_ids : List String)
    (split_configs : Option (List SplitConfig)) :
    Except SplitError (List CalculatedSplit) :=
  if member_ids.isEmpty then .ok []
  else
    match split_type with
    | .equal => .ok (_calculate_equal_split total_amount member_ids)
    | .percentage =>
        match split_configs with
        | none => .error (.configurationError .percentage)
        | some [] => .error (.configurationError .percentage)
        | some cs => _calculate_percentage_split total_amount cs
    | .shares =>
        match split_configs with
        | none => .error (.configurationError .shares)
        | some [] => .error (.configurationError .shares)
        | some cs => _calculate_shares_split total_amount cs
    | .exact =>
        match split_configs with
        | none => .error (.configurationError .exact)
        | some [] => .error (.configurationError .exact)
        | some cs => _calculate_exact_split total_amount cs

/-- The `Balance` TypedDict from `settlement.py`: net balance for a user
(positive = owed money, negative = owes money). -/
structure Balance where
  user_id : String
  amount : ℚ
deriving DecidableEq, Repr

/-- The `Settlement` dataclass: a single settlement transaction. -/
structure Settlement where
  from_user_id : String
  to_user_id : String
  amount : ℚ
deriving DecidableEq, Repr

/-- One split entry of the `expenses_data` input of
`calculate_balances`: `{'user_id', 'amount', 'is_settled'}`.  A missing
`is_settled` key reads as `False` (`split.get('is_settled', False)`), so
it is modelled by the same `false`. -/
structure SplitData where
  user_id : String
  amount : ℚ
  is_settled : Bool
deriving DecidableEq, Repr

/-- One expense of the `expenses_data` input of `calculate_balances`.  A
missing `splits` key reads as `[]` (`expense.get('splits', [])`), so it
is modelled by the same `[]`. -/
structure ExpenseData where
  paid_by_id : String
  amount : ℚ
  splits : List SplitData
deriving DecidableEq, Repr

/-- Python `balances[k] = balances.get(k, Decimal(0)) + d` on an
insertion-ordered `dict`, modelled on an association list that keeps
insertion order. -/
def addToBalance (m : List (String × ℚ)) (k : String) (d : ℚ) :
    List (String × ℚ) :=
  match m with
  | [] => [(k, d)]
  | (k', v) :: rest =>
      if k' = k then (k', v + d) :: rest else (k', v) :: addToBalance rest k d

/-- The split loop body of `calculate_balances`: settled splits are
skipped, an unsettled split debits its owner. -/
def applySplit (m : List (String × ℚ)) (s : SplitData) : List (String × ℚ) :=
  if s.is_settled then m else addToBalance m s.user_id (-s.amount)

/-- The expense loop body of `calculate_balances`: credit the payer by
the expense total, then debit each unsettled split owner. -/
def processExpense (m : List (String × ℚ)) (e : ExpenseData) :
    List (String × ℚ) :=
  e.splits.foldl applySplit (addToBalance m e.paid_by_id e.amount)

/-- The accumulator of `calculate_balances` before the final filter. -/
def rawBalances (expenses_data : List ExpenseData) : List (String × ℚ) :=
  expenses_data.foldl processExpense []

/-- `calculate_balances`: fold the expense history into net balances and
drop entries with `abs(amount) <= 0.01`. -/
def calculate_balances (expenses_data : List ExpenseData) : List Balance :=
  ((rawBalances expenses_data).filter fun p => decide ((1:ℚ)/100 < |p.2|)).map
    fun p => ⟨p.1, p.2⟩

/-- `_insert_sorted`: insert before the first strictly smaller amount
(descending order), else append. -/
def _insert_sorted (sorted_list : List (String × ℚ)) (item : String × ℚ) :
    List (String × ℚ) :=
  match sorted_list with
  | [] => [item]
  | (uid, existing_amount) :: rest =>
      if existing_amount < item.2 then item :: (uid, existing_amount) :: rest
      else (uid, existing_amount) :: _insert_sorted rest item


/-- Python's stable `list.sort(key=lambda x: x[1], reverse=True)`:
a stable descending sort by amount. -/
def sortByAmountDesc (l : List (String × ℚ)) : List (String × ℚ) :=
  l.mergeSort fun a b => decide (b.2 ≤ a.2)

/-- The classification loop of `optimize_settlements`: amounts strictly
above `0.01` become creditors, amounts strictly below `-0.01` become
debtors (stored as `abs(amount)`), everything else is ignored. -/
def classifyBalances : List Balance → List (String × ℚ) →
    List (String × ℚ) → List (String × ℚ) × List (String × ℚ)
  | [], creditors, debtors => (creditors, debtors)
  | b :: rest, creditors, debtors =>
      if 1/100 < b.amount then
        classifyBalances rest (creditors ++ [(b.user_id, b.amount)]) debtors
      else if b.amount < -(1/100) then
        classifyBalances rest creditors (debtors ++ [(b.user_id, |b.amount|)])
      else classifyBalances rest creditors debtors

/-- The `while creditors and debtors` loop of `optimize_settlements`:
match the heads, settle the minimum of the two amounts (emitted only
when above `0.01`, quantized with the default half-even rounding), and
re-insert a party whose remaining amount is above `0.01`. -/
def settleLoop : List (String × ℚ) → List (String × ℚ) → List Settlement
  | [], _ => []
  | _ :: _, [] => []
  | (creditor_id, credit_amount) :: creditors,
      (debtor_id, debt_amount) :: debtors =>
    let settle_amount := min credit_amount debt_amount
    let emitted : List Settlement :=
      if 1/100 < settle_amount then
        [{ from_user_id := debtor_id, to_user_id := creditor_id,
           amount := quantizeHalfEven settle_amount }]
      else []
    emitted ++
      settleLoop
        (if 1/100 < credit_amount - settle_amount then
          _insert_sorted creditors (creditor_id, credit_amount - settle_amount)
        else creditors)
        (if 1/100 < debt_amount - settle_amount then
          _insert_sorted debtors (debtor_id, debt_amount - settle_amount)
        else debtors)
termination_by creditors debtors => creditors.length + debtors.length
decreasing_by
  have H : ∀ (l : List (String × ℚ)) (item : String × ℚ),
      (_insert_sorted l item).length = l.length + 1 := by
    intro l item
    induction l with
    | nil => rfl
    | cons hd tl ih =>
        obtain ⟨uid, a⟩ := hd
        rw [_insert_sorted]
        split <;> simp [ih]
  simp only [List.length_cons]
  split
  · split
    · rename_i h1 h2
      exfalso
      rcases min_choice credit_amount debt_amount with h | h <;>
        rw [h] at h1 h2 <;> linarith
    · simp only [H]
      omega
  · split
    · simp only [H]
      omega
    · omega

/-- `optimize_settlements`: classify, sort both sides descending, then
run the greedy matching loop. -/
def optimize_settlements (balances : List Balance) : List Settlement :=
  let cd := classifyBalances balances [] []
  settleLoop (sortByAmountDesc cd.1) (sortByAmountDesc cd.2)

/-- State-threaded model of the classification loop of
`optimize_settlements`, for the frame claim: each iteration reads
`balance['user_id']` and `balance['amount']` and performs no write to
the `balances` store (the source only ever calls `append`, `pop`,
`insert` and `sort` on the freshly built `creditors`/`debtors` lists);
the store the loop hands back is rebuilt from exactly the values
read. -/
def readBalances : List Balance → List (String × ℚ) → List (String × ℚ) →
    (List (String × ℚ) × List (String × ℚ)) × List Balance
  | [], creditors, debtors => ((creditors, debtors), [])
  | b :: rest, creditors, debtors =>
      let user_id := b.user_id
      let amount := b.amount
      let acc :=
        if 1/100 < amount then (creditors ++ [(user_id, amount)], debtors)
        else if amount < -(1/100) then
          (creditors, debtors ++ [(user_id, |amount|)])
        else (creditors, debtors)
      let res := readBalances rest acc.1 acc.2
      (res.1, { user_id := user_id, amount := amount } :: res.2)

/-- `optimize_settlements` with the `balances` store threaded through
explicitly and returned. -/
def optimize_settlements_state (balances : List Balance) :
    List Settlement × List Balance :=
  let r := readBalances balances [] []
  (settleLoop (sortByAmountDesc r.1.1) (sortByAmountDesc r.1.2), r.2)

/-- Sum of the amounts of a list of balances. -/
def balancesTotal (bs : List Balance) : ℚ := (bs.map (·.amount)).sum

/-- Sum of the amounts of the entries of an association list credited to
user `u`. -/
def pairSumFor (u : String) (l : List (String × ℚ)) : ℚ :=
  (l.map fun p => if p.1 = u then p.2 else 0).sum

/-- Sum of the amounts of the settlements that involve user `u` (as
payer or as payee). -/
def settleSumFor (u : String) (ss : List Settlement) : ℚ :=
  (ss.map fun s =>
    if s.from_user_id = u ∨ s.to_user_id = u then s.amount else 0).sum

/-- Total magnitude of the balance entries of user `u` that
`optimize_settlements` classifies as creditor (`net > 0.01`) or debtor
(`net < -0.01`). -/
def classifiedMagnitude (u : String) (bs : List Balance) : ℚ :=
  (bs.map fun b =>
    if b.user_id = u ∧ (1/100 < b.amount ∨ b.amount < -(1/100))
    then |b.amount| else 0).sum

/-- A value that is an integer number of cents (the 2-digit-scale
amounts of the spec's data model). -/
def isCentMultiple (x : ℚ) : Prop := ∃ k : ℤ, x = (k : ℚ) / 100

/-- Sum of the amounts of the unsettled splits of one expense. -/
def unsettledSum (splits : List SplitData) : ℚ :=
  ((splits.filter fun s => !s.is_settled).map (·.amount)).sum

/-- Number of balances classified as creditors by
`optimize_settlements`. -/
def numCreditors (bs : List Balance) : ℕ :=
  (bs.filter fun b => decide ((1:ℚ)/100 < b.amount)).length

/-- Number of balances classified as debtors by
`optimize_settlements`. -/
def numDebtors (bs : List Balance) : ℕ :=
  (bs.filter fun b => decide (b.amount < -((1:ℚ)/100))).length

theorem _insert_sorted_length (sorted_list : List (String × ℚ))
    (item : String × ℚ) :
    (_insert_sorted sorted_list item).length = sorted_list.length + 1 := by
  induction sorted_list with
  | nil => rfl
  | cons hd tl ih =>
      obtain ⟨uid, a⟩ := hd
      rw [_insert_sorted]
      split <;> simp [ih]

theorem calculate_splits_nil (total_amount : ℚ) (split_type : SplitType)
    (split_configs : Option (List SplitConfig)) :
    calculate_splits total_amount split_type [] split_configs = .ok [] := rfl

theorem calculate_splits_equal_cons (total_amount : ℚ) (m : String)
    (mids : List String) (split_configs : Option (List SplitConfig)) :
    calculate_splits total_amount .equal (m :: mids) split_configs
      = .ok (_calculate_equal_split total_amount (m :: mids)) := rfl

theorem calculate_splits_percentage_none (total_amount : ℚ) (m : String)
    (mids : List String) :
    calculate_splits total_amount .percentage (m :: mids) none
      = .error (.configurationError .percentage) := rfl

theorem calculate_splits_shares_none (total_amount : ℚ) (m : String)
    (mids : List String) :
    calculate_splits total_amount .shares (m :: mids) none
      = .error (.configurationError .shares) := rfl

theorem calculate_splits_exact_none (total_amount : ℚ) (m : String)
    (mids : List String) :
    calculate_splits total_amount .exact (m :: mids) none
      = .error (.configurationError .exact) := rfl

theorem calculate_splits_percentage_cons (total_amount : ℚ) (m : String)
    (mids : List String) (c : SplitConfig) (cs : List SplitConfig) :
    calculate_splits total_amount .percentage (m :: mids) (some (c :: cs))
      = _calculate_percentage_split total_amount (c :: cs) := rfl

theorem calculate_splits_shares_cons (total_amount : ℚ) (m : String)
    (mids : List String) (c : SplitConfig) (cs : List SplitConfig) :
    calculate_splits total_amount .shares (m :: mids) (some (c :: cs))
      = _calculate_shares_split total_amount (c :: cs) := rfl

theorem calculate_splits_exact_cons (total_amount : ℚ) (m : String)
    (mids : List String) (c : SplitConfig) (cs : List SplitConfig) :
    calculate_splits total_amount .exact (m :: mids) (some (c :: cs))
      = _calculate_exact_split total_amount (c :: cs) := rfl

/-- Sanity check: the spec's scenario 1 — `$100.00` split equally among
three members gives `33.34 / 33.33 / 33.33` (the first member absorbs
the extra cent). -/
theorem equal_split_scenario1 :
    (_calculate_equal_split 100 ["A", "B", "C"]).map (·.amount)
      = [3334/100, 3333/100, 3333/100] := by
  norm_num [_calculate_equal_split, quantizeHalfUp, roundHalfUp, truncInt,
    List.enum, List.enumFrom]

/--
C4: for the Equal policy the claim says `base = floor(total / N)` and a
`round((total − base×N) × 100)`-cent top-up for the first members.  The
source instead quantizes `total / N` with `ROUND_HALF_UP` and truncates
the (possibly negative) remainder with `int(...)`, so when the half-up
rounding rounds the per-member quotient up, the negative remainder is
never redistributed: at `total = 2.00`, `N = 3` the code returns
`0.67 / 0.67 / 0.67` (sum `2.01`) where the claim's floor rule gives
`0.67 / 0.67 / 0.66` (sum `2.00`).
-/
theorem C4_equal_split_rounding_bug :
    (_calculate_equal_split 2 ["A", "B", "C"]).map (·.amount)
      = [67/100, 67/100, 67/100] := by
  norm_num [_calculate_equal_split, quantizeHalfUp, roundHalfUp, truncInt,
    List.enum, List.enumFrom]

/--
C1: the sum of the split amounts returned by `calculate_splits` is
claimed to equal the total exactly for every valid input.  The Equal
policy violates this: at `total = 2.00` with three members the returned
amounts sum to `2.01`, one cent above the total, because the per-member
base is quantized with `ROUND_HALF_UP` (not floored) and the resulting
negative remainder is not redistributed.
-/
theorem C1_equal_split_sum_bug :
    (calculate_splits 2 .equal ["A", "B", "C"] none).map
        (fun splits => (splits.map (·.amount)).sum) = .ok (201/100) := by
  have hd : calculate_splits 2 .equal ["A", "B", "C"] none
      = .ok (_calculate_equal_split 2 ["A", "B", "C"]) := rfl
  have hs : (_calculate_equal_split 2 ["A", "B", "C"]).map (·.amount)
      = [67/100, 67/100, 67/100] := by
    norm_num [_calculate_equal_split, quantizeHalfUp, roundHalfUp, truncInt,
      List.enum, List.enumFrom]
  rw [hd, Except.map, hs]
  norm_num

/--
C7: `calculate_splits` returns an empty list (and no error) for an
empty member list under every policy and every configuration, and with
a non-empty member list every non-Equal policy invoked without a
configuration fails with the configuration error for that policy.
-/
theorem C7_empty_members_and_missing_config (total_amount : ℚ)
    (split_type : SplitType) (split_configs : Option (List SplitConfig))
    (member_ids : List String) (hm : member_ids ≠ []) :
    calculate_splits total_amount split_type [] split_configs = .ok []
    ∧ (split_type ≠ .equal →
        calculate_splits total_amount split_type member_ids none
          = .error (.configurationError split_type)) := by
  constructor
  · exact calculate_splits_nil total_amount split_type split_configs
  · intro hne
    cases member_ids with
    | nil => exact absurd rfl hm
    | cons m mids =>
        cases split_type with
        | equal => exact absurd rfl hne
        | percentage => exact calculate_splits_percentage_none total_amount m mids
        | shares => exact calculate_splits_shares_none total_amount m mids
        | exact => exact calculate_splits_exact_none total_amount m mids

/-- Witness for C7 at a concrete input. -/
theorem C7_witness :
    calculate_splits 5 .percentage [] none = .ok []
    ∧ calculate_splits 5 .percentage ["A"] none
        = .error (.configurationError .percentage) := by
  have h := C7_empty_members_and_missing_config 5 .percentage none ["A"]
    (List.cons_ne_nil _ _)
  exact ⟨h.1, h.2 (by simp)⟩

/--
C9: for the Exact policy with `total_amount = 0` (and configured
amounts reconciling with `0` within the tolerance) the source guards
the display-percentage division with `if total_amount` and returns
`Decimal(0)` for every member instead of dividing by zero.
-/
theorem C9_exact_zero_total (member_ids : List String)
    (cs : List SplitConfig) (hm : member_ids ≠ []) (hc : cs ≠ [])
    (hsum : |(cs.map effAmount).sum| ≤ 1/100) :
    calculate_splits 0 .exact member_ids (some cs)
      = .ok (cs.map fun c =>
          { user_id := c.user_id, amount := effAmount c,
            percentage := some 0, shares := none }) := by
  cases member_ids with
  | nil => exact absurd rfl hm
  | cons m mids =>
      cases cs with
      | nil => exact absurd rfl hc
      | cons c cs' =>
          have hns : ¬ ((1:ℚ)/100 < |((c :: cs').map effAmount).sum - 0|) := by
            rw [sub_zero]
            exact not_lt.mpr hsum
          have hexact : _calculate_exact_split 0 (c :: cs')
              = .ok ((c :: cs').map fun cc =>
                  { user_id := cc.user_id, amount := effAmount cc,
                    percentage := some 0, shares := none }) := by
            unfold _calculate_exact_split
            simp only []
            rw [if_neg hns]
            simp
          rw [calculate_splits_exact_cons, hexact]

/-- Witness for C9 at a concrete input. -/
theorem C9_witness :
    calculate_splits 0 .exact ["A"] (some [⟨"A", none, none, some (1/100)⟩])
      = .ok [{ user_id := "A", amount := 1/100, percentage := some 0,
               shares := none }] := by
  have h := C9_exact_zero_total ["A"] [⟨"A", none, none, some (1/100)⟩]
    (List.cons_ne_nil _ _) (List.cons_ne_nil _ _)
    (by rw [show ([⟨"A", none, none, some (1/100)⟩] :
          List SplitConfig).map effAmount = [1/100] from rfl]
        rw [List.sum_cons, List.sum_nil, add_zero,
          abs_of_nonneg (by norm_num : (0:ℚ) ≤ 1/100)])
  simpa [effAmount] using h

/--
C6: for the Percentage and Exact policies with a non-empty member list
and a supplied (non-empty) configuration, `calculate_splits` raises the
validation error — which reports the expected versus the actual
aggregate — exactly when the configured percentages deviate from `100`
(respectively the configured amounts deviate from the total) by more
than `0.01`.
-/
theorem C6_validation_iff (total_amount : ℚ) (member_ids : List String)
    (cs : List SplitConfig) (hm : member_ids ≠ []) (hc : cs ≠ []) :
    ((1:ℚ)/100 < |(cs.map effPercentage).sum - 100| →
        calculate_splits total_amount .percentage member_ids (some cs)
          = .error (.validationError 100 (cs.map effPercentage).sum))
    ∧ (¬ (1:ℚ)/100 < |(cs.map effPercentage).sum - 100| →
        ∃ splits, calculate_splits total_amount .percentage member_ids (some cs)
          = .ok splits)
    ∧ ((1:ℚ)/100 < |(cs.map effAmount).sum - total_amount| →
        calculate_splits total_amount .exact member_ids (some cs)
          = .error (.validationError total_amount (cs.map effAmount).sum))
    ∧ (¬ (1:ℚ)/100 < |(cs.map effAmount).sum - total_amount| →
        ∃ splits, calculate_splits total_amount .exact member_ids (some cs)
          = .ok splits) := by
  cases member_ids with
  | nil => exact absurd rfl hm
  | cons m mids =>
      cases cs with
      | nil => exact absurd rfl hc
      | cons c cs' =>
          refine ⟨fun h => ?_, fun h => ?_, fun h => ?_, fun h => ?_⟩
          · rw [calculate_splits_percentage_cons]
            unfold _calculate_percentage_split
            simp only []
            rw [if_pos h]
          · rw [calculate_splits_percentage_cons]
            unfold _calculate_percentage_split
            simp only []
            rw [if_neg h]
            exact ⟨_, rfl⟩
          · rw [calculate_splits_exact_cons]
            unfold _calculate_exact_split
            simp only []
            rw [if_pos h]
          · rw [calculate_splits_exact_cons]
            unfold _calculate_exact_split
            simp only []
            rw [if_neg h]
            exact ⟨_, rfl⟩

/-- Witness for C6: the spec's scenario 3, percentages summing to 99,
fails with the validation error citing expected 100, got 99. -/
theorem C6_witness :
    calculate_splits 50 .percentage ["A", "B"]
        (some [⟨"A", some 49, none, none⟩, ⟨"B", some 50, none, none⟩])
      = .error (.validationError 100 99) := by
  have h := (C6_validation_iff 50 ["A", "B"]
      [⟨"A", some 49, none, none⟩, ⟨"B", some 50, none, none⟩]
      (List.cons_ne_nil _ _) (List.cons_ne_nil _ _)).1
  have hsum : (([⟨"A", some 49, none, none⟩, ⟨"B", some 50, none, none⟩] :
      List SplitConfig).map effPercentage).sum = 99 := by
    norm_num [effPercentage]
  rw [hsum] at h
  refine h ?_
  rw [show |(99:ℚ) - 100| = 1 by rw [show (99:ℚ) - 100 = -1 by norm_num,
    abs_neg, abs_one]]
  norm_num

theorem effShares_default (c : SplitConfig)
    (h : c.shares = none ∨ c.shares = some 0) : effShares c = 1 := by
  rcases h with h | h <;> simp [effShares, h]

theorem effShares_set_one (c : SplitConfig) :
    effShares { c with shares := some 1 } = 1 := by
  simp [effShares]

theorem sharesRows_congr (total_amount : ℚ) (total_shares : ℤ) :
    ∀ (cs cs' : List SplitConfig) (running_total : ℚ),
      cs.map (fun x => (x.user_id, effShares x))
        = cs'.map (fun x => (x.user_id, effShares x)) →
      sharesRows total_amount total_shares cs running_total
        = sharesRows total_amount total_shares cs' running_total := by
  intro cs
  induction cs with
  | nil =>
      intro cs' running_total h
      cases cs' with
      | nil => rfl
      | cons c' tl' => simp at h
  | cons c tl ih =>
      intro cs' running_total h
      cases cs' with
      | nil => simp at h
      | cons c' tl' =>
          simp only [List.map_cons, List.cons.injEq, Prod.mk.injEq] at h
          obtain ⟨⟨hu, hs⟩, htl⟩ := h
          cases tl with
          | nil =>
              cases tl' with
              | nil => simp [sharesRows, hu, hs]
              | cons t' ts' => simp at htl
          | cons t ts =>
              cases tl' with
              | nil => simp at htl
              | cons t' ts' =>
                  simp only [sharesRows]
                  rw [hu, hs]
                  congr 1
                  exact ih (t' :: ts') _ htl

/--
C8: for the Shares policy an entry whose share count is missing, `None`
or `0` is read through `config.get('shares', 1) or 1` and is therefore
treated exactly as one share — in the total-share sum, in the member's
amount, in the display percentage and in the reported share count — so
replacing such an entry by the same entry with `shares = 1` leaves the
result of `_calculate_shares_split` unchanged, and no error arises from
such an entry.
-/
theorem C8_shares_default_config (total_amount : ℚ)
    (cs1 cs2 : List SplitConfig) (c : SplitConfig)
    (h : c.shares = none ∨ c.shares = some 0) :
    _calculate_shares_split total_amount (cs1 ++ c :: cs2)
      = _calculate_shares_split total_amount
          (cs1 ++ { c with shares := some 1 } :: cs2) := by
  have he : effShares c = effShares { c with shares := some 1 } := by
    rw [effShares_default c h, effShares_set_one]
  have hmap : (cs1 ++ c :: cs2).map (fun x => (x.user_id, effShares x))
      = (cs1 ++ { c with shares := some 1 } :: cs2).map
          (fun x => (x.user_id, effShares x)) := by
    simp [he]
  have hsum : ((cs1 ++ c :: cs2).map effShares).sum
      = ((cs1 ++ { c with shares := some 1 } :: cs2).map effShares).sum := by
    simp [he]
  unfold _calculate_shares_split
  simp only []
  rw [hsum]
  split
  · rfl
  · rw [sharesRows_congr total_amount _ _ _ 0 hmap]

/-- Witness for C8 at a concrete input: a missing share count next to an
explicit 2-share member behaves as 1 share. -/
theorem C8_witness :
    _calculate_shares_split 3
        [⟨"A", none, none, none⟩, ⟨"B", none, some 2, none⟩]
      = _calculate_shares_split 3
          [⟨"A", none, some 1, none⟩, ⟨"B", none, some 2, none⟩] := by
  have h := C8_shares_default_config 3 [] [⟨"B", none, some 2, none⟩]
      ⟨"A", none, none, none⟩ (Or.inl rfl)
  simpa using h

theorem addToBalance_sum (m : List (String × ℚ)) (k : String) (d : ℚ) :
    ((addToBalance m k d).map (·.2)).sum = (m.map (·.2)).sum + d := by
  induction m with
  | nil => simp [addToBalance]
  | cons q rest ih =>
      obtain ⟨k', v⟩ := q
      simp only [addToBalance]
      split
      · simp
        ring
      · simp [ih]
        ring

theorem applySplit_sum (m : List (String × ℚ)) (s : SplitData) :
    ((applySplit m s).map (·.2)).sum
      = (m.map (·.2)).sum + (if s.is_settled then 0 else -s.amount) := by
  unfold applySplit
  split
  · simp
  · simp [addToBalance_sum]

theorem unsettledSum_cons (s : SplitData) (tl : List SplitData) :
    unsettledSum (s :: tl)
      = (if s.is_settled then 0 else s.amount) + unsettledSum tl := by
  unfold unsettledSum
  rw [List.filter_cons]
  by_cases hs : s.is_settled <;> simp [hs]

theorem foldl_applySplit_sum (splits : List SplitData) :
    ∀ m : List (String × ℚ),
      ((splits.foldl applySplit m).map (·.2)).sum
        = (m.map (·.2)).sum - unsettledSum splits := by
  induction splits with
  | nil =>
      intro m
      simp [unsettledSum]
  | cons s tl ih =>
      intro m
      rw [List.foldl_cons, ih, applySplit_sum, unsettledSum_cons]
      by_cases hs : s.is_settled <;> simp [hs] <;> ring

theorem processExpense_sum (m : List (String × ℚ)) (e : ExpenseData) :
    ((processExpense m e).map (·.2)).sum
      = (m.map (·.2)).sum + e.amount - unsettledSum e.splits := by
  unfold processExpense
  rw [foldl_applySplit_sum, addToBalance_sum]

theorem foldl_processExpense_sum (es : List ExpenseData)
    (h : ∀ e ∈ es, unsettledSum e.splits = e.amount) :
    ∀ m : List (String × ℚ),
      ((es.foldl processExpense m).map (·.2)).sum = (m.map (·.2)).sum := by
  induction es with
  | nil => intro m; rfl
  | cons e tl ih =>
      intro m
      rw [List.foldl_cons,
        ih (fun x hx => h x (List.mem_cons_of_mem _ hx)),
        processExpense_sum, h e (List.mem_cons_self _ _)]
      ring

theorem rawBalances_sum (es : List ExpenseData)
    (h : ∀ e ∈ es, unsettledSum e.splits = e.amount) :
    ((rawBalances es).map (·.2)).sum = 0 := by
  have H := foldl_processExpense_sum es h []
  simpa [rawBalances] using H

theorem sum_filter_split (l : List (String × ℚ)) (p : String × ℚ → Bool) :
    (l.map (·.2)).sum
      = ((l.filter p).map (·.2)).sum
        + ((l.filter fun x => !(p x)).map (·.2)).sum := by
  induction l with
  | nil => simp
  | cons x tl ih =>
      rw [List.filter_cons, List.filter_cons]
      by_cases hx : p x <;> simp [hx, ih] <;> ring

theorem length_filter_split (l : List (String × ℚ)) (p : String × ℚ → Bool) :
    (l.filter p).length + (l.filter fun x => !(p x)).length = l.length := by
  induction l with
  | nil => rfl
  | cons x tl ih =>
      rw [List.filter_cons, List.filter_cons]
      by_cases hx : p x <;> simp [hx] <;> omega

theorem abs_sum_le_card (l : List (String × ℚ))
    (h : ∀ x ∈ l, |x.2| ≤ 1/100) :
    |(l.map (·.2)).sum| ≤ (l.length : ℚ) / 100 := by
  induction l with
  | nil => simp
  | cons x tl ih =>
      simp only [List.map_cons, List.sum_cons, List.length_cons]
      have h1 : |x.2 + (tl.map (·.2)).sum| ≤ |x.2| + |(tl.map (·.2)).sum| :=
        abs_add _ _
      have h2 : |x.2| ≤ 1/100 := h x (List.mem_cons_self _ _)
      have h3 := ih fun y hy => h y (List.mem_cons_of_mem _ hy)
      push_cast
      linarith

/--
C2 (amended): for every list of expenses in which each expense's
unsettled splits sum exactly to its amount, the pre-filter accumulator
of `calculate_balances` sums to zero exactly, so the returned balances
sum to zero up to the dead-zone residuals the final filter drops: the
absolute value of the sum is at most `0.01` times the number of dropped
accumulator entries.  (The original claim — sum within `0.01` for every
expense list — fails both for expenses whose splits do not reconcile
and when several sub-cent residuals are dropped, see the
counterexample.)
-/
theorem C2_amended_balance_sum (es : List ExpenseData)
    (h : ∀ e ∈ es, unsettledSum e.splits = e.amount) :
    |balancesTotal (calculate_balances es)|
      ≤ (((rawBalances es).length - (calculate_balances es).length : ℕ) : ℚ)
          / 100 := by
  have hout : balancesTotal (calculate_balances es)
      = (((rawBalances es).filter fun q =>
            decide ((1:ℚ)/100 < |q.2|)).map (·.2)).sum := by
    unfold balancesTotal calculate_balances
    rw [List.map_map]
    rfl
  have houtlen : (calculate_balances es).length
      = ((rawBalances es).filter fun q => decide ((1:ℚ)/100 < |q.2|)).length := by
    unfold calculate_balances
    rw [List.length_map]
  have hz := rawBalances_sum es h
  have hsplit := sum_filter_split (rawBalances es)
    (fun q => decide ((1:ℚ)/100 < |q.2|))
  have hlen := length_filter_split (rawBalances es)
    (fun q => decide ((1:ℚ)/100 < |q.2|))
  have hb := abs_sum_le_card
    ((rawBalances es).filter fun x => !(decide ((1:ℚ)/100 < |x.2|)))
    (fun x hx => by
      have hx2 := (List.mem_filter.mp hx).2
      simp only [Bool.not_eq_true', decide_eq_false_iff_not, not_lt] at hx2
      exact hx2)
  have h1 : (((rawBalances es).filter fun q =>
        decide ((1:ℚ)/100 < |q.2|)).map (·.2)).sum
      = -((((rawBalances es).filter fun x =>
            !(decide ((1:ℚ)/100 < |x.2|))).map (·.2)).sum) := by
    linarith [hsplit, hz]
  rw [hout, h1, abs_neg, houtlen]
  have h2 : ((rawBalances es).filter fun x =>
        !(decide ((1:ℚ)/100 < |x.2|))).length
      = (rawBalances es).length
        - ((rawBalances es).filter fun q =>
            decide ((1:ℚ)/100 < |q.2|)).length := by
    omega
  rw [← h2]
  exact hb

/--
C2 (counterexample): a single expense of `0.02` paid by `A` and split
into two unsettled `0.01` halves owed by `B` and `C` reconciles
exactly, yet both `-0.01` accumulator entries fall in the dead zone and
are dropped, so the returned balances are `[A: +0.02]` and their sum
`0.02` exceeds the claimed `0.01` tolerance.
-/
theorem C2_counterexample :
    ¬ |balancesTotal (calculate_balances
        [{ paid_by_id := "A", amount := 2/100,
           splits := [⟨"B", 1/100, false⟩, ⟨"C", 1/100, false⟩] }])|
      ≤ 1/100 := by
  have hraw : rawBalances
      [{ paid_by_id := "A", amount := 2/100,
         splits := [⟨"B", 1/100, false⟩, ⟨"C", 1/100, false⟩] }]
      = [("A", 2/100), ("B", -(1/100)), ("C", -(1/100))] := by
    simp [rawBalances, processExpense, applySplit, addToBalance]
  have habs1 : |(2/100 : ℚ)| = 2/100 := abs_of_nonneg (by norm_num)
  have habs2 : |(-(1/100) : ℚ)| = 1/100 := by
    rw [abs_neg, abs_of_nonneg (by norm_num : (0:ℚ) ≤ 1/100)]
  have hc1 : (1:ℚ)/100 < |(2/100 : ℚ)| := by
    rw [habs1]
    norm_num
  have hc2 : ¬ (1:ℚ)/100 < |(-(1/100) : ℚ)| := by
    rw [habs2]
    exact lt_irrefl _
  unfold calculate_balances
  rw [hraw, List.filter_cons, List.filter_cons, List.filter_cons,
    List.filter_nil]
  simp only [decide_eq_true_eq]
  rw [if_pos hc1, if_neg hc2, if_neg hc2]
  simp only [balancesTotal, List.map_cons, List.map_nil, List.sum_cons,
    List.sum_nil, add_zero]
  rw [habs1]
  norm_num

/-- Witness for C2 (amended) at a concrete input: the counterexample
expense reconciles, two accumulator entries are dropped, and the bound
`2 × 0.01` holds with equality. -/
theorem C2_amended_witness :
    |balancesTotal (calculate_balances
        [{ paid_by_id := "A", amount := 2/100,
           splits := [⟨"B", 1/100, false⟩, ⟨"C", 1/100, false⟩] }])|
      ≤ (((rawBalances
            [{ paid_by_id := "A", amount := 2/100,
               splits := [⟨"B", 1/100, false⟩, ⟨"C", 1/100, false⟩] }]).length
          - (calculate_balances
              [{ paid_by_id := "A", amount := 2/100,
                 splits := [⟨"B", 1/100, false⟩,
                   ⟨"C", 1/100, false⟩] }]).length : ℕ) : ℚ) / 100 :=
  C2_amended_balance_sum _ (by
    intro e he
    rw [List.mem_singleton] at he
    subst he
    simp [unsettledSum]
    norm_num)

theorem numCreditors_cons (b : Balance) (tl : List Balance) :
    numCreditors (b :: tl)
      = (if (1:ℚ)/100 < b.amount then 1 else 0) + numCreditors tl := by
  unfold numCreditors
  rw [List.filter_cons]
  by_cases h : (1:ℚ)/100 < b.amount <;> rw [one_div] at h <;> simp [h] <;>
    omega

theorem numDebtors_cons (b : Balance) (tl : List Balance) :
    numDebtors (b :: tl)
      = (if b.amount < -((1:ℚ)/100) then 1 else 0) + numDebtors tl := by
  unfold numDebtors
  rw [List.filter_cons]
  by_cases h : b.amount < -((1:ℚ)/100) <;> rw [one_div] at h <;> simp [h] <;>
    omega

theorem classifyBalances_lengths (bs : List Balance) :
    ∀ cs ds : List (String × ℚ),
      (classifyBalances bs cs ds).1.length = cs.length + numCreditors bs
      ∧ (classifyBalances bs cs ds).2.length = ds.length + numDebtors bs := by
  induction bs with
  | nil =>
      intro cs ds
      simp [classifyBalances, numCreditors, numDebtors]
  | cons b tl ih =>
      intro cs ds
      rw [classifyBalances]
      rw [numCreditors_cons, numDebtors_cons]
      by_cases h1 : (1:ℚ)/100 < b.amount
      · have hnd : ¬ b.amount < -((1:ℚ)/100) := by
          intro hlt
          linarith
        rw [if_pos h1, if_pos h1, if_neg hnd]
        have := ih (cs ++ [(b.user_id, b.amount)]) ds
        constructor
        · rw [this.1, List.length_append]
          simp
          omega
        · rw [this.2]
          omega
      · rw [if_neg h1, if_neg h1]
        by_cases h2 : b.amount < -((1:ℚ)/100)
        · rw [if_pos h2, if_pos h2]
          have := ih cs (ds ++ [(b.user_id, |b.amount|)])
          constructor
          · rw [this.1]
            omega
          · rw [this.2, List.length_append]
            simp
            omega
        · rw [if_neg h2, if_neg h2]
          have := ih cs ds
          constructor
          · rw [this.1]
            omega
          · rw [this.2]
            omega

theorem settleLoop_length_le (cs ds : List (String × ℚ)) :
    (settleLoop cs ds).length ≤ cs.length + ds.length - 1 := by
  generalize hn : cs.length + ds.length = n
  induction n using Nat.strong_induction_on generalizing cs ds with
  | _ n ih =>
    match cs, ds with
    | [], ds => simp [settleLoop]
    | c :: cs', [] => simp [settleLoop]
    | (cid, ca) :: cs', (did, da) :: ds' =>
        simp only [settleLoop, List.length_append]
        have hem : (if (1:ℚ)/100 < min ca da then
            [{ from_user_id := did, to_user_id := cid,
               amount := quantizeHalfEven (min ca da) }]
            else ([] : List Settlement)).length ≤ 1 := by
          split <;> simp
        simp only [List.length_cons] at hn
        by_cases h1 : (1:ℚ)/100 < ca - min ca da <;>
          by_cases h2 : (1:ℚ)/100 < da - min ca da
        · exfalso
          rcases min_choice ca da with h | h <;> rw [h] at h1 h2 <;> linarith
        · rw [if_pos h1, if_neg h2]
          have hrec := ih (cs'.length + 1 + ds'.length) (by omega)
            (_insert_sorted cs' (cid, ca - min ca da)) ds'
            (by rw [_insert_sorted_length])
          omega
        · rw [if_neg h1, if_pos h2]
          have hrec := ih (cs'.length + (ds'.length + 1)) (by omega)
            cs' (_insert_sorted ds' (did, da - min ca da))
            (by rw [_insert_sorted_length])
          omega
        · rw [if_neg h1, if_neg h2]
          have hrec := ih (cs'.length + ds'.length) (by omega)
            cs' ds' rfl
          omega

/--
C5: the number of settlements emitted by `optimize_settlements` is at
most `#creditors + #debtors − 1`, with creditors the balances with net
above `0.01` and debtors those below `-0.01`.  The subtraction is the
truncated natural-number one; with no classified party the loop runs
zero iterations and emits nothing, so the bound also reads correctly
there.
-/
theorem C5_transaction_count (balances : List Balance) :
    (optimize_settlements balances).length
      ≤ numCreditors balances + numDebtors balances - 1 := by
  unfold optimize_settlements
  simp only []
  have h := settleLoop_length_le
    (sortByAmountDesc (classifyBalances balances [] []).1)
    (sortByAmountDesc (classifyBalances balances [] []).2)
  have hcl := classifyBalances_lengths balances [] []
  have h1 : (sortByAmountDesc (classifyBalances balances [] []).1).length
      = numCreditors balances := by
    unfold sortByAmountDesc
    rw [List.length_mergeSort, hcl.1]
    simp
  have h2 : (sortByAmountDesc (classifyBalances balances [] []).2).length
      = numDebtors balances := by
    unfold sortByAmountDesc
    rw [List.length_mergeSort, hcl.2]
    simp
  rw [h1, h2] at h
  exact h

theorem isCentMultiple_sub {x y : ℚ} (hx : isCentMultiple x)
    (hy : isCentMultiple y) : isCentMultiple (x - y) := by
  obtain ⟨kx, rfl⟩ := hx
  obtain ⟨ky, rfl⟩ := hy
  exact ⟨kx - ky, by push_cast; ring⟩

theorem isCentMultiple_neg {x : ℚ} (hx : isCentMultiple x) :
    isCentMultiple (-x) := by
  obtain ⟨kx, rfl⟩ := hx
  exact ⟨-kx, by push_cast; ring⟩

theorem isCentMultiple_min {x y : ℚ} (hx : isCentMultiple x)
    (hy : isCentMultiple y) : isCentMultiple (min x y) := by
  rcases min_choice x y with h | h <;> rw [h] <;> assumption

theorem isCentMultiple_abs {x : ℚ} (hx : isCentMultiple x) :
    isCentMultiple |x| := by
  rcases abs_choice x with h | h <;> rw [h]
  · exact hx
  · exact isCentMultiple_neg hx

theorem roundHalfEven_intCast (k : ℤ) : roundHalfEven (k : ℚ) = k := by
  unfold roundHalfEven
  rw [Int.floor_intCast, sub_self]
  norm_num

theorem quantizeHalfEven_cent {x : ℚ} (h : isCentMultiple x) :
    quantizeHalfEven x = x := by
  obtain ⟨k, rfl⟩ := h
  unfold quantizeHalfEven
  rw [show (k : ℚ)/100 * 100 = (k : ℚ) by field_simp, roundHalfEven_intCast]

theorem pairSumFor_nil (u : String) : pairSumFor u [] = 0 := rfl

theorem pairSumFor_cons (u : String) (p : String × ℚ)
    (l : List (String × ℚ)) :
    pairSumFor u (p :: l) = (if p.1 = u then p.2 else 0) + pairSumFor u l := by
  simp [pairSumFor]

theorem pairSumFor_append (u : String) (l1 l2 : List (String × ℚ)) :
    pairSumFor u (l1 ++ l2) = pairSumFor u l1 + pairSumFor u l2 := by
  simp [pairSumFor]

theorem pairSumFor_nonneg (u : String) (l : List (String × ℚ))
    (h : ∀ p ∈ l, 0 ≤ p.2) : 0 ≤ pairSumFor u l := by
  induction l with
  | nil => simp [pairSumFor_nil]
  | cons p tl ih =>
      rw [pairSumFor_cons]
      have h1 := h p (List.mem_cons_self _ _)
      have h2 := ih fun q hq => h q (List.mem_cons_of_mem _ hq)
      by_cases hp : p.1 = u <;> simp [hp] <;> linarith

theorem pairSumFor_perm (u : String) {l1 l2 : List (String × ℚ)}
    (h : l1.Perm l2) : pairSumFor u l1 = pairSumFor u l2 :=
  (h.map _).sum_eq

theorem settleSumFor_nil (u : String) : settleSumFor u [] = 0 := rfl

theorem settleSumFor_append (u : String) (s1 s2 : List Settlement) :
    settleSumFor u (s1 ++ s2)
      = settleSumFor u s1 + settleSumFor u s2 := by
  simp [settleSumFor]

theorem _insert_sorted_pairSum (u : String) (l : List (String × ℚ))
    (item : String × ℚ) :
    pairSumFor u (_insert_sorted l item)
      = pairSumFor u l + (if item.1 = u then item.2 else 0) := by
  induction l with
  | nil =>
      rw [show _insert_sorted [] item = [item] from rfl, pairSumFor_cons,
        pairSumFor_nil]
      ring
  | cons hd tl ih =>
      obtain ⟨a, b⟩ := hd
      rw [_insert_sorted]
      split
      · simp only [pairSumFor_cons]
        ring
      · simp only [pairSumFor_cons]
        rw [ih]
        ring

theorem _insert_sorted_mem {l : List (String × ℚ)} {item p : String × ℚ}
    (hp : p ∈ _insert_sorted l item) : p ∈ l ∨ p = item := by
  induction l with
  | nil =>
      rw [show _insert_sorted [] item = [item] from rfl] at hp
      right
      simpa using hp
  | cons hd tl ih =>
      obtain ⟨a, b⟩ := hd
      rw [_insert_sorted] at hp
      split at hp
      · rcases List.mem_cons.mp hp with h | h
        · right
          exact h
        · left
          exact h
      · rcases List.mem_cons.mp hp with h | h
        · left
          simp [h]
        · rcases ih h with h1 | h1
          · left
            exact List.mem_cons_of_mem _ h1
          · right
            exact h1

theorem settleSumFor_singleton (u : String) (s : Settlement) :
    settleSumFor u [s]
      = if s.from_user_id = u ∨ s.to_user_id = u then s.amount else 0 := by
  simp [settleSumFor]

theorem pairSumFor_cons_mk (u k : String) (x : ℚ) (l : List (String × ℚ)) :
    pairSumFor u ((k, x) :: l)
      = (if k = u then x else 0) + pairSumFor u l :=
  pairSumFor_cons u (k, x) l

theorem _insert_sorted_pairSum_mk (u k : String) (x : ℚ)
    (l : List (String × ℚ)) :
    pairSumFor u (_insert_sorted l (k, x))
      = pairSumFor u l + (if k = u then x else 0) :=
  _insert_sorted_pairSum u l (k, x)

theorem settleLoop_sum_le (u : String) (cs ds : List (String × ℚ))
    (hc : ∀ p ∈ cs, 0 ≤ p.2 ∧ isCentMultiple p.2)
    (hd : ∀ p ∈ ds, 0 ≤ p.2 ∧ isCentMultiple p.2) :
    settleSumFor u (settleLoop cs ds)
      ≤ pairSumFor u cs + pairSumFor u ds := by
  generalize hn : cs.length + ds.length = n
  induction n using Nat.strong_induction_on generalizing cs ds with
  | _ n ih =>
    match cs, ds with
    | [], ds =>
        simp only [settleLoop, settleSumFor_nil, pairSumFor_nil]
        have := pairSumFor_nonneg u ds fun p hp => (hd p hp).1
        linarith
    | c :: cs', [] =>
        simp only [settleLoop, settleSumFor_nil, pairSumFor_nil]
        have := pairSumFor_nonneg u (c :: cs') fun p hp => (hc p hp).1
        linarith
    | (cid, ca) :: cs', (did, da) :: ds' =>
        have hca0 : 0 ≤ ca := (hc (cid, ca) (List.mem_cons_self _ _)).1
        have hcaC : isCentMultiple ca := (hc (cid, ca) (List.mem_cons_self _ _)).2
        have hda0 : 0 ≤ da := (hd (did, da) (List.mem_cons_self _ _)).1
        have hdaC : isCentMultiple da := (hd (did, da) (List.mem_cons_self _ _)).2
        have hc' : ∀ p ∈ cs', 0 ≤ p.2 ∧ isCentMultiple p.2 :=
          fun p hp => hc p (List.mem_cons_of_mem _ hp)
        have hd' : ∀ p ∈ ds', 0 ≤ p.2 ∧ isCentMultiple p.2 :=
          fun p hp => hd p (List.mem_cons_of_mem _ hp)
        have hsle1 : min ca da ≤ ca := min_le_left _ _
        have hsle2 : min ca da ≤ da := min_le_right _ _
        have hs0 : 0 ≤ min ca da := le_min hca0 hda0
        have hscent : isCentMultiple (min ca da) :=
          isCentMultiple_min hcaC hdaC
        simp only [settleLoop]
        rw [settleSumFor_append]
        simp only [List.length_cons] at hn
        have hemle : settleSumFor u (if (1:ℚ)/100 < min ca da then
              [{ from_user_id := did, to_user_id := cid,
                 amount := quantizeHalfEven (min ca da) }]
              else ([] : List Settlement))
            ≤ if did = u ∨ cid = u then min ca da else 0 := by
          split
          · rw [settleSumFor_singleton, quantizeHalfEven_cent hscent]
          · rw [settleSumFor_nil]
            split
            · exact hs0
            · exact le_rfl
        by_cases h1 : (1:ℚ)/100 < ca - min ca da <;>
          by_cases h2 : (1:ℚ)/100 < da - min ca da
        · exfalso
          rcases min_choice ca da with h | h <;> rw [h] at h1 h2 <;> linarith
        · rw [if_pos h1, if_neg h2]
          have hmemC : ∀ p ∈ _insert_sorted cs' (cid, ca - min ca da),
              0 ≤ p.2 ∧ isCentMultiple p.2 := by
            intro p hp
            rcases _insert_sorted_mem hp with h | h
            · exact hc' p h
            · rw [h]
              refine ⟨?_, isCentMultiple_sub hcaC hscent⟩
              show (0:ℚ) ≤ ca - min ca da
              linarith
          have hrec := ih (cs'.length + 1 + ds'.length) (by omega)
            (_insert_sorted cs' (cid, ca - min ca da)) ds' hmemC hd'
            (by rw [_insert_sorted_length])
          rw [_insert_sorted_pairSum_mk] at hrec
          rw [pairSumFor_cons_mk, pairSumFor_cons_mk]
          by_cases hcu : cid = u <;> by_cases hdu : did = u <;>
            simp only [hcu, hdu, if_true, if_false, eq_self_iff_true,
              or_true, true_or, or_false, false_or, or_self]
              at hemle hrec ⊢ <;>
            linarith
        · rw [if_neg h1, if_pos h2]
          have hmemD : ∀ p ∈ _insert_sorted ds' (did, da - min ca da),
              0 ≤ p.2 ∧ isCentMultiple p.2 := by
            intro p hp
            rcases _insert_sorted_mem hp with h | h
            · exact hd' p h
            · rw [h]
              refine ⟨?_, isCentMultiple_sub hdaC hscent⟩
              show (0:ℚ) ≤ da - min ca da
              linarith
          have hrec := ih (cs'.length + (ds'.length + 1)) (by omega)
            cs' (_insert_sorted ds' (did, da - min ca da)) hc' hmemD
            (by rw [_insert_sorted_length])
          rw [_insert_sorted_pairSum_mk] at hrec
          rw [pairSumFor_cons_mk, pairSumFor_cons_mk]
          by_cases hcu : cid = u <;> by_cases hdu : did = u <;>
            simp only [hcu, hdu, if_true, if_false, eq_self_iff_true,
              or_true, true_or, or_false, false_or, or_self]
              at hemle hrec ⊢ <;>
            linarith
        · rw [if_neg h1, if_neg h2]
          have hrec := ih (cs'.length + ds'.length) (by omega) cs' ds'
            hc' hd' rfl
          rw [pairSumFor_cons_mk, pairSumFor_cons_mk]
          by_cases hcu : cid = u <;> by_cases hdu : did = u <;>
            simp only [hcu, hdu, if_true, if_false, eq_self_iff_true,
              or_true, true_or, or_false, false_or, or_self] at hemle ⊢ <;>
            linarith

theorem classifiedMagnitude_cons (u : String) (b : Balance)
    (tl : List Balance) :
    classifiedMagnitude u (b :: tl)
      = (if b.user_id = u ∧ (1/100 < b.amount ∨ b.amount < -(1/100))
          then |b.amount| else 0)
        + classifiedMagnitude u tl := by
  simp [classifiedMagnitude]

theorem classifyBalances_mem (bs : List Balance)
    (hb : ∀ b ∈ bs, isCentMultiple b.amount) :
    ∀ cs ds : List (String × ℚ),
      (∀ p ∈ cs, 0 ≤ p.2 ∧ isCentMultiple p.2) →
      (∀ p ∈ ds, 0 ≤ p.2 ∧ isCentMultiple p.2) →
      (∀ p ∈ (classifyBalances bs cs ds).1, 0 ≤ p.2 ∧ isCentMultiple p.2)
      ∧ (∀ p ∈ (classifyBalances bs cs ds).2,
          0 ≤ p.2 ∧ isCentMultiple p.2) := by
  induction bs with
  | nil =>
      intro cs ds hcs hds
      exact ⟨hcs, hds⟩
  | cons b tl ih =>
      intro cs ds hcs hds
      have hbC : isCentMultiple b.amount := hb b (List.mem_cons_self _ _)
      have htl : ∀ x ∈ tl, isCentMultiple x.amount :=
        fun x hx => hb x (List.mem_cons_of_mem _ hx)
      rw [classifyBalances]
      by_cases h1 : (1:ℚ)/100 < b.amount
      · rw [if_pos h1]
        refine ih htl _ _ ?_ hds
        intro p hp
        rcases List.mem_append.mp hp with h | h
        · exact hcs p h
        · rw [List.mem_singleton.mp h]
          exact ⟨by linarith, hbC⟩
      · rw [if_neg h1]
        by_cases h2 : b.amount < -(1/100)
        · rw [if_pos h2]
          refine ih htl _ _ hcs ?_
          intro p hp
          rcases List.mem_append.mp hp with h | h
          · exact hds p h
          · rw [List.mem_singleton.mp h]
            exact ⟨abs_nonneg _, isCentMultiple_abs hbC⟩
        · rw [if_neg h2]
          exact ih htl _ _ hcs hds

theorem classifyBalances_pairSum (u : String) (bs : List Balance) :
    ∀ cs ds : List (String × ℚ),
      pairSumFor u (classifyBalances bs cs ds).1
        + pairSumFor u (classifyBalances bs cs ds).2
      = pairSumFor u cs + pairSumFor u ds + classifiedMagnitude u bs := by
  induction bs with
  | nil =>
      intro cs ds
      simp [classifyBalances, classifiedMagnitude]
  | cons b tl ih =>
      intro cs ds
      rw [classifyBalances, classifiedMagnitude_cons]
      by_cases h1 : (1:ℚ)/100 < b.amount
      · rw [if_pos h1, ih, pairSumFor_append]
        rw [pairSumFor_cons_mk, pairSumFor_nil]
        have habs : |b.amount| = b.amount := abs_of_nonneg (by linarith)
        by_cases hu : b.user_id = u
        · rw [if_pos hu, if_pos ⟨hu, Or.inl h1⟩, habs]
          ring
        · rw [if_neg hu, if_neg fun hx => hu hx.1]
          ring
      · rw [if_neg h1]
        by_cases h2 : b.amount < -(1/100)
        · rw [if_pos h2, ih, pairSumFor_append]
          rw [pairSumFor_cons_mk, pairSumFor_nil]
          by_cases hu : b.user_id = u
          · rw [if_pos hu, if_pos ⟨hu, Or.inr h2⟩]
            ring
          · rw [if_neg hu, if_neg fun hx => hu hx.1]
            ring
        · rw [if_neg h2, ih]
          have hcond : ¬ (b.user_id = u
              ∧ (1/100 < b.amount ∨ b.amount < -(1/100))) := by
            rintro ⟨-, h | h⟩
            · exact h1 h
            · exact h2 h
          rw [if_neg hcond]
          ring

/--
C3 (amended): for every input list of balances whose amounts are whole
numbers of cents, each user's total emitted settlement amount is at
most that user's classified balance magnitude (the sum of `|amount|`
over that user's entries with net above `0.01` or below `-0.01`).  The
original claim — per-user equality, exactly — fails: a party whose
remaining amount falls to `0.01` or less is dropped with that residual
unsettled, and a party left over when the opposite list empties keeps
its whole remainder, see the counterexample.
-/
theorem C3_amended_settlement_sums (balances : List Balance) (u : String)
    (hcent : ∀ b ∈ balances, isCentMultiple b.amount) :
    settleSumFor u (optimize_settlements balances)
      ≤ classifiedMagnitude u balances := by
  unfold optimize_settlements sortByAmountDesc
  simp only []
  have hmem := classifyBalances_mem balances hcent [] []
    (by intro p hp; simp at hp) (by intro p hp; simp at hp)
  have hp1 := List.mergeSort_perm (classifyBalances balances [] []).1
    (fun a b => decide (b.2 ≤ a.2))
  have hp2 := List.mergeSort_perm (classifyBalances balances [] []).2
    (fun a b => decide (b.2 ≤ a.2))
  have hs := settleLoop_sum_le u
    ((classifyBalances balances [] []).1.mergeSort fun a b => decide (b.2 ≤ a.2))
    ((classifyBalances balances [] []).2.mergeSort fun a b => decide (b.2 ≤ a.2))
    (fun p hp => hmem.1 p (hp1.mem_iff.mp hp))
    (fun p hp => hmem.2 p (hp2.mem_iff.mp hp))
  refine le_trans hs ?_
  rw [pairSumFor_perm u hp1, pairSumFor_perm u hp2]
  have hps := classifyBalances_pairSum u balances [] []
  rw [pairSumFor_nil] at hps
  linarith

/--
C3 (counterexample): with balances `A: +10.00` and `B: -9.99` the loop
settles `9.99`, drops creditor `A` with a `0.01` residual, and emits a
single settlement `B → A` of `9.99`; the settlements involving `A` sum
to `9.99`, not to `A`'s balance magnitude `10.00`.
-/
theorem C3_counterexample :
    settleSumFor "A" (optimize_settlements
        [⟨"A", 10⟩, ⟨"B", -(999/100)⟩])
      ≠ classifiedMagnitude "A" [⟨"A", 10⟩, ⟨"B", -(999/100)⟩] := by
  have habs : |(-(999/100) : ℚ)| = 999/100 := by
    rw [abs_neg, abs_of_nonneg (by norm_num : (0:ℚ) ≤ 999/100)]
  have hcl : classifyBalances [⟨"A", 10⟩, ⟨"B", -(999/100)⟩] [] []
      = ([("A", 10)], [("B", 999/100)]) := by
    rw [classifyBalances, if_pos (by norm_num : (1:ℚ)/100 < 10),
      classifyBalances,
      if_neg (by norm_num : ¬ (1:ℚ)/100 < -(999/100)),
      if_pos (by norm_num : (-(999/100) : ℚ) < -(1/100)),
      classifyBalances, habs]
    simp
  have hmin : min (10:ℚ) (999/100) = 999/100 := by
    rw [min_def]
    norm_num
  have hq : quantizeHalfEven (999/100) = 999/100 :=
    quantizeHalfEven_cent ⟨999, by norm_num⟩
  have hsl : settleLoop [("A", (10:ℚ))] [("B", (999/100 : ℚ))]
      = [{ from_user_id := "B", to_user_id := "A", amount := 999/100 }] := by
    simp only [settleLoop, hmin, hq]
    rw [if_pos (by norm_num : (1:ℚ)/100 < 999/100),
      if_neg (by norm_num : ¬ (1:ℚ)/100 < 10 - 999/100),
      if_neg (by norm_num : ¬ (1:ℚ)/100 < 999/100 - 999/100)]
    simp only [settleLoop]
    simp
  unfold optimize_settlements sortByAmountDesc
  simp only [hcl]
  rw [List.mergeSort_singleton, List.mergeSort_singleton, hsl]
  rw [settleSumFor_singleton]
  rw [classifiedMagnitude_cons, classifiedMagnitude_cons]
  simp only [classifiedMagnitude, List.map_nil, List.sum_nil]
  have habs10 : |(10:ℚ)| = 10 := abs_of_nonneg (by norm_num)
  norm_num [habs, habs10]
  rw [if_neg (by decide : ¬ ("B" : String) = "A")]
  norm_num

/-- Witness for C3 (amended) at a concrete cent-multiple input: `A`'s
emitted total `9.99` is below `A`'s magnitude `10.00`. -/
theorem C3_amended_witness :
    settleSumFor "A" (optimize_settlements
        [⟨"A", 10⟩, ⟨"B", -(999/100)⟩])
      ≤ classifiedMagnitude "A" [⟨"A", 10⟩, ⟨"B", -(999/100)⟩] :=
  C3_amended_settlement_sums [⟨"A", 10⟩, ⟨"B", -(999/100)⟩] "A" (by
    intro b hb
    rcases List.mem_cons.mp hb with h | h
    · rw [h]
      exact ⟨1000, by norm_num⟩
    · rw [List.mem_singleton.mp h]
      exact ⟨-999, by norm_num⟩)

theorem readBalances_eq (bs : List Balance) :
    ∀ cs ds : List (String × ℚ),
      readBalances bs cs ds = (classifyBalances bs cs ds, bs) := by
  induction bs with
  | nil => intro cs ds; rfl
  | cons b tl ih =>
      intro cs ds
      rw [readBalances, classifyBalances]
      by_cases h1 : (1:ℚ)/100 < b.amount
      · rw [if_pos h1, if_pos h1]
        rw [ih]
      · rw [if_neg h1, if_neg h1]
        by_cases h2 : b.amount < -(1/100)
        · rw [if_pos h2, if_pos h2]
          rw [ih]
        · rw [if_neg h2, if_neg h2]
          rw [ih]

/--
C10: `optimize_settlements` does not mutate its input.  In the
state-threaded model `optimize_settlements_state`, where the `balances`
store is passed through the classification loop explicitly (the loop
only reads `balance['user_id']` and `balance['amount']`; the source
mutates only the freshly built `creditors`/`debtors` lists), the store
handed back is the input list itself — same entries, same order, every
`user_id` and `amount` unchanged — and the settlements computed agree
with `optimize_settlements`.
-/
theorem C10_no_mutation (balances : List Balance) :
    (optimize_settlements_state balances).2 = balances
    ∧ (optimize_settlements_state balances).1
        = optimize_settlements balances := by
  unfold optimize_settlements_state optimize_settlements
  simp only []
  rw [readBalances_eq balances [] []]
  exact ⟨rfl, rfl⟩
